import Mathlib

/-!
Verification of the typed event dispatcher and the namespaced logger of
the `mendahu/utilities` package.

The `TypedEventEmitter` class in the repository is a thin typed wrapper:
every operation (`on`, `once`, `emit`, `off`, `removeListener`,
`removeAllListeners`, `listeners`, `prependListener`,
`prependOnceListener`) delegates directly to the wrapped `node:events`
`EventEmitter` primitive, whose implementation is not part of the
repository sources.  The dispatcher's registry and emission semantics are
therefore modelled from the specification (its §3 data model, §4.1
operation contracts and §5 reentrancy contract); each such definition
carries a doc comment saying so.  The `Logger` component is embedded
directly from `src/logger/index.ts`.

Callback functions are identified by reference identity; we model a
callback's identity as a `Nat`.  A listener's runtime behaviour during an
emission is modelled by two parameters: `act`, giving the mutation the
callback applies to the registry when invoked (reentrancy), and `throws`,
telling whether the callback raises; a thrown error is identified by the
callback that raised it.
-/

namespace Utilities

/-- A listener entry in an event's sequence.  Modelled from the spec:
§3 defines `ListenerEntry` as a callback (a function value, identified
here by reference identity as a `Nat`) together with a `once` flag marking
single-invocation semantics; the registry holding these entries lives in
the wrapped `node:events` primitive, which is absent from the repository
sources. -/
structure ListenerEntry where
  callback : Nat
  once : Bool
deriving DecidableEq

/-- Modelled from the spec: the registry maps each event identifier to an
ordered sequence of listener entries (§3).  The representation by a total
function makes "never registered" and "emptied" behave identically, as §3
requires. -/
def Registry : Type := String → List ListenerEntry

/-- Modelled from the spec: the registry is created empty when the
dispatcher is constructed (§3 lifecycle). -/
def emptyRegistry : Registry := fun _ => []

/-- Modelled from the spec: `on(eventKey, listener)` appends
`{callback: listener, once: false}` to the event's sequence (§4.1);
the underlying mutation is performed by the wrapped emitter. -/
def onReg (r : Registry) (k : String) (c : Nat) : Registry :=
  fun q => if q = k then r k ++ [ListenerEntry.mk c false] else r q

/-- Modelled from the spec: `once(eventKey, listener)` appends
`{callback: listener, once: true}` (§4.1). -/
def onceReg (r : Registry) (k : String) (c : Nat) : Registry :=
  fun q => if q = k then r k ++ [ListenerEntry.mk c true] else r q

/-- Modelled from the spec: `prependListener` inserts its entry at the
front of the event's sequence rather than appending it (§4.1). -/
def prependReg (r : Registry) (k : String) (c : Nat) : Registry :=
  fun q => if q = k then ListenerEntry.mk c false :: r k else r q

/-- Modelled from the spec: `prependOnceListener` inserts a `once` entry
at the front of the event's sequence (§4.1). -/
def prependOnceReg (r : Registry) (k : String) (c : Nat) : Registry :=
  fun q => if q = k then ListenerEntry.mk c true :: r k else r q

/-- Remove the first entry whose callback identity equals `c`, scanning
in sequence order; identity of the remaining list when nothing matches.
Modelled from the spec: the removal behaviour of `off` (§4.1). -/
def removeFirst (c : Nat) : List ListenerEntry → List ListenerEntry
  | [] => []
  | e :: es => if e.callback = c then es else e :: removeFirst c es

/-- Modelled from the spec: `off(eventKey, listener)` removes the first
entry in the event's sequence whose callback identity equals `listener`;
a no-op when no entry matches (§4.1). -/
def offReg (r : Registry) (k : String) (c : Nat) : Registry :=
  fun q => if q = k then removeFirst c (r k) else r q

/-- Modelled from the spec: `removeListener` is an alias of `off` with
identical behaviour (§4.1). -/
def removeListenerReg : Registry → String → Nat → Registry := offReg

/-- Modelled from the spec: the wrapped emitter's keyed
`_baseRemoveAllListeners(event)` clears the named event's entire
sequence and leaves every other event's sequence unchanged (§4.1). -/
def removeAllKeyReg (r : Registry) (k : String) : Registry :=
  fun q => if q = k then [] else r q

/-- Modelled from the spec: the wrapped emitter's bare
`_baseRemoveAllListeners()` clears every event's sequence
(registry-wide reset, §4.1). -/
def removeAllReg (_r : Registry) : Registry := fun _ => []

/-- `TypedEventEmitter.removeAllListeners(event?)` as written in the
repository source: `event ? baseRemoveAllListeners(event) :
baseRemoveAllListeners()`.  The optional parameter is an `Option`, and
the condition is JavaScript truthiness: an absent argument and the
empty-string key are both falsy and route to the bare, clear-everything
call; only a non-empty key routes to the keyed call. -/
def removeAllListenersOp (r : Registry) (event : Option String) : Registry :=
  match event with
  | some k => if k = "" then removeAllReg r else removeAllKeyReg r k
  | none => removeAllReg r

/-- Modelled from the spec: `listeners(eventKey)` returns a snapshot of
each entry's callback in current sequence order, `once` entries
included (§4.1). -/
def listenersOf (r : Registry) (k : String) : List Nat :=
  (r k).map (fun e => e.callback)

/-- Remove the first `once`-flagged entry whose callback identity equals
`c`.  Modelled from the spec: a `once` entry "is removed from the
sequence immediately before its callback is invoked during the emission
that triggers it" (§4.1). -/
def removeFirstOnce (c : Nat) : List ListenerEntry → List ListenerEntry
  | [] => []
  | e :: es =>
    if e.callback = c ∧ e.once = true then es else e :: removeFirstOnce c es

/-- Result of one emission: the registry after the pass, the ordered
trace of invoked callbacks, the propagated error (`some c` when callback
`c` threw; the dispatcher neither catches nor wraps it), and the boolean
return value of `emit`. -/
structure EmitResult where
  registry : Registry
  trace : List Nat
  thrown : Option Nat
  returned : Bool

/-- One emission pass over the snapshot of entries that were registered
when the emission began.  Modelled from the spec: `emit` synchronously
invokes, in sequence order, every currently-registered listener; a `once`
entry is removed immediately before its invocation; a listener that
throws aborts the remainder of the sequence, the error propagating
uncaught; and mutations made by a listener during the emission do not
affect which already-decided entries are invoked (§4.1, §5, §7). -/
def runEntries (k : String) (act : Nat → Registry → Registry)
    (throws : Nat → Bool) :
    List ListenerEntry → Registry → Registry × List Nat × Option Nat
  | [], r => (r, [], none)
  | e :: es, r =>
    let r1 : Registry :=
      if e.once then
        fun q => if q = k then removeFirstOnce e.callback (r k) else r q
      else r
    let r2 := act e.callback r1
    if throws e.callback then (r2, [e.callback], some e.callback)
    else
      let rest := runEntries k act throws es r2
      (rest.1, e.callback :: rest.2.1, rest.2.2)

/-- Modelled from the spec: `emit(eventKey, ...)` takes the sequence
registered at the moment of emission, runs the pass over it, and returns
`true` exactly when at least one listener was registered at that
moment (§4.1). -/
def emit (k : String) (act : Nat → Registry → Registry)
    (throws : Nat → Bool) (r : Registry) : EmitResult :=
  let snap := r k
  let out := runEntries k act throws snap r
  { registry := out.1, trace := out.2.1, thrown := out.2.2,
    returned := !snap.isEmpty }

/-- A passive listener behaviour: callbacks do not mutate the registry. -/
def pureAct : Nat → Registry → Registry := fun _ r => r

/-- No callback throws. -/
def noThrows : Nat → Bool := fun _ => false

/-- Iterate `emit` on the same key `n` times, concatenating the traces. -/
def emitSeq (k : String) (act : Nat → Registry → Registry)
    (throws : Nat → Bool) : Nat → Registry → Registry × List Nat
  | 0, r => (r, [])
  | Nat.succ n, r =>
    let res := emit k act throws r
    let rest := emitSeq k act throws n res.registry
    (rest.1, res.trace ++ rest.2)

/-- Number of entries of a sequence whose callback identity is `c`. -/
def countC (c : Nat) : List ListenerEntry → Nat
  | [] => 0
  | e :: es => (if e.callback = c then 1 else 0) + countC c es

/-- Number of occurrences of `c` in a trace. -/
def countN (c : Nat) : List Nat → Nat
  | [] => 0
  | x :: xs => (if x = c then 1 else 0) + countN c xs

/-- The trace of an emission pass depends only on the snapshot and on
which callbacks throw: the invoked callbacks up to and including the
first throwing one. -/
def traceOf (throws : Nat → Bool) : List ListenerEntry → List Nat
  | [] => []
  | e :: es =>
    if throws e.callback then [e.callback] else e.callback :: traceOf throws es

/-- The error propagated out of an emission pass: the first throwing
callback of the snapshot, if any. -/
def thrownOf (throws : Nat → Bool) : List ListenerEntry → Option Nat
  | [] => none
  | e :: es =>
    if throws e.callback then some e.callback else thrownOf throws es

/-- Registry reached by a pass with passive listeners: only the
`once`-removals performed just before each invocation take effect. -/
def passReg (k : String) : List ListenerEntry → Registry → Registry
  | [], r => r
  | e :: es, r =>
    passReg k es
      (if e.once then
        (fun q => if q = k then removeFirstOnce e.callback (r k) else r q)
       else r)

/-- A reentrant listener behaviour used in the `once`-lifecycle scenario:
callback `5` re-registers itself via `once` on key `"x"` during its own
invocation. -/
def reRegAct : Nat → Registry → Registry :=
  fun c r => if c = 5 then onceReg r "x" 5 else r

/-- A reentrant listener behaviour used in the snapshot scenario:
callback `1` removes callback `2` from key `"x"` during the emission. -/
def removerAct : Nat → Registry → Registry :=
  fun c r => if c = 1 then offReg r "x" 2 else r

/-- Throw behaviour for the failure-propagation scenario: exactly
callback `2` throws. -/
def throwsTwo : Nat → Bool := fun c => c == 2

/-- Logger options from `src/logger/index.ts`: an optional namespace and
an optional environment allow-list.  The `namespace` field is renamed
`nspace` (`namespace` is a Lean keyword). -/
structure LoggerOptions where
  nspace : Option String
  env : Option (List String)

/-- ANSI color codes from `src/logger/index.ts`. -/
structure ColorCodes where
  RED : String
  YELLOW : String
  RESET : String

/-- The `Colors` constant of `src/logger/index.ts`. -/
def Colors : ColorCodes :=
  { RED := "\x1b[31m", YELLOW := "\x1b[33m", RESET := "\x1b[0m" }

/-- The `Logger` state: its `code` prefix and its environment
allow-list, as in `src/logger/index.ts`. -/
structure Logger where
  code : String
  env : List String

/-- The `Logger` constructor: `options?.namespace ? ... .toUpperCase() :
"APP"` (a missing or empty — falsy — namespace gives `"APP"`), and
`options?.env || []` (a present empty array is truthy in JavaScript and
is kept as given). -/
def Logger.make (options : Option LoggerOptions) : Logger :=
  { code :=
      match options with
      | some o =>
        match o.nspace with
        | some ns => if ns = "" then "APP" else ns.toUpper
        | none => "APP"
      | none => "APP",
    env :=
      match options with
      | some o => o.env.getD []
      | none => [] }

/-- The current environment name used by `shouldLog`:
`process.env.NODE_ENV || "development"` (an absent or empty variable
falls back to `"development"`). -/
def currentEnvName (nodeEnv : Option String) : String :=
  match nodeEnv with
  | some e => if e = "" then "development" else e
  | none => "development"

/-- `Logger.shouldLog` from `src/logger/index.ts`: with an empty
allow-list always log; otherwise log exactly when the allow-list
contains the current environment. -/
def Logger.shouldLog (l : Logger) (nodeEnv : Option String) : Bool :=
  if l.env.isEmpty then true
  else l.env.contains (currentEnvName nodeEnv)

/-- `Logger.log`: the line written to the console, `none` when the
output is suppressed by `shouldLog`. -/
def Logger.log (l : Logger) (nodeEnv : Option String) (message : String) :
    Option String :=
  if l.shouldLog nodeEnv then some ("[" ++ l.code ++ "]: " ++ message)
  else none

/-- `Logger.error`: red-colored output, gated like `log`. -/
def Logger.error (l : Logger) (nodeEnv : Option String) (message : String) :
    Option String :=
  if l.shouldLog nodeEnv then
    some (Colors.RED ++ "[" ++ l.code ++ "]: " ++ message ++ Colors.RESET)
  else none

/-- `Logger.warn`: yellow-colored output, gated like `log`. -/
def Logger.warn (l : Logger) (nodeEnv : Option String) (message : String) :
    Option String :=
  if l.shouldLog nodeEnv then
    some (Colors.YELLOW ++ "[" ++ l.code ++ "]: " ++ message ++ Colors.RESET)
  else none

/-- `Logger.debug`: plain output, gated like `log`. -/
def Logger.debug (l : Logger) (nodeEnv : Option String) (message : String) :
    Option String :=
  if l.shouldLog nodeEnv then some ("[" ++ l.code ++ "]: " ++ message)
  else none

/-- The `createLogger` factory of `src/logger/index.ts`. -/
def createLogger (options : Option LoggerOptions) : Logger :=
  Logger.make options

theorem removeFirst_no_match (c : Nat) :
    ∀ l : List ListenerEntry, (∀ e ∈ l, e.callback ≠ c) → removeFirst c l = l := by
  intro l
  induction l with
  | nil => intro _; rfl
  | cons e es ih =>
    intro h
    have he : e.callback ≠ c := h e (List.mem_cons_self e es)
    simp only [removeFirst, if_neg he]
    rw [ih (fun x hx => h x (List.mem_cons_of_mem e hx))]

theorem removeFirst_first_match (c : Nat) :
    ∀ (l1 : List ListenerEntry) (e : ListenerEntry) (l2 : List ListenerEntry),
      e.callback = c → (∀ x ∈ l1, x.callback ≠ c) →
      removeFirst c (l1 ++ e :: l2) = l1 ++ l2 := by
  intro l1
  induction l1 with
  | nil =>
    intro e l2 he _
    simp [removeFirst, he]
  | cons x xs ih =>
    intro e l2 he h
    have hx : x.callback ≠ c := h x (List.mem_cons_self x xs)
    simp only [List.cons_append, removeFirst, if_neg hx]
    rw [List.append_eq, ih e l2 he (fun y hy => h y (List.mem_cons_of_mem x hy))]

theorem runEntries_trace (k : String) (act : Nat → Registry → Registry)
    (throws : Nat → Bool) :
    ∀ (l : List ListenerEntry) (r : Registry),
      (runEntries k act throws l r).2.1 = traceOf throws l := by
  intro l
  induction l with
  | nil => intro r; rfl
  | cons e es ih =>
    intro r
    by_cases h : throws e.callback = true
    · simp [runEntries, traceOf, h]
    · simp [runEntries, traceOf, h, ih]

theorem runEntries_thrown (k : String) (act : Nat → Registry → Registry)
    (throws : Nat → Bool) :
    ∀ (l : List ListenerEntry) (r : Registry),
      (runEntries k act throws l r).2.2 = thrownOf throws l := by
  intro l
  induction l with
  | nil => intro r; rfl
  | cons e es ih =>
    intro r
    by_cases h : throws e.callback = true
    · simp [runEntries, thrownOf, h]
    · simp [runEntries, thrownOf, h, ih]

theorem runEntries_registry_pure (k : String) :
    ∀ (l : List ListenerEntry) (r : Registry),
      (runEntries k pureAct noThrows l r).1 = passReg k l r := by
  intro l
  induction l with
  | nil => intro r; rfl
  | cons e es ih =>
    intro r
    simp [runEntries, passReg, pureAct, noThrows, ih]

theorem traceOf_noThrows :
    ∀ l : List ListenerEntry,
      traceOf noThrows l = l.map (fun e => e.callback) := by
  intro l
  induction l with
  | nil => rfl
  | cons e es ih => simp [traceOf, noThrows, ih]

theorem traceOf_first_throw (throws : Nat → Bool) :
    ∀ (l1 : List ListenerEntry) (e : ListenerEntry) (l2 : List ListenerEntry),
      (∀ x ∈ l1, throws x.callback = false) → throws e.callback = true →
      traceOf throws (l1 ++ e :: l2)
        = l1.map (fun x => x.callback) ++ [e.callback] := by
  intro l1
  induction l1 with
  | nil =>
    intro e l2 _ he
    simp [traceOf, he]
  | cons x xs ih =>
    intro e l2 h he
    have hx : throws x.callback = false := h x (List.mem_cons_self x xs)
    simp only [List.cons_append, traceOf, hx, Bool.false_eq_true, if_false,
      List.map_cons]
    rw [List.append_eq, ih e l2 (fun y hy => h y (List.mem_cons_of_mem x hy)) he]

theorem thrownOf_first_throw (throws : Nat → Bool) :
    ∀ (l1 : List ListenerEntry) (e : ListenerEntry) (l2 : List ListenerEntry),
      (∀ x ∈ l1, throws x.callback = false) → throws e.callback = true →
      thrownOf throws (l1 ++ e :: l2) = some e.callback := by
  intro l1
  induction l1 with
  | nil =>
    intro e l2 _ he
    simp [thrownOf, he]
  | cons x xs ih =>
    intro e l2 h he
    have hx : throws x.callback = false := h x (List.mem_cons_self x xs)
    simp only [List.cons_append, thrownOf, hx, Bool.false_eq_true, if_false]
    exact ih e l2 (fun y hy => h y (List.mem_cons_of_mem x hy)) he

theorem emit_trace_eq (k : String) (act : Nat → Registry → Registry)
    (throws : Nat → Bool) (r : Registry) :
    (emit k act throws r).trace = traceOf throws (r k) :=
  runEntries_trace k act throws (r k) r

theorem emit_thrown_eq (k : String) (act : Nat → Registry → Registry)
    (throws : Nat → Bool) (r : Registry) :
    (emit k act throws r).thrown = thrownOf throws (r k) :=
  runEntries_thrown k act throws (r k) r

theorem emit_registry_pure (k : String) (r : Registry) :
    (emit k pureAct noThrows r).registry = passReg k (r k) r :=
  runEntries_registry_pure k (r k) r

theorem emit_trace_noThrows (k : String) (act : Nat → Registry → Registry)
    (r : Registry) :
    (emit k act noThrows r).trace = (r k).map (fun e => e.callback) := by
  rw [emit_trace_eq, traceOf_noThrows]

theorem countN_append (c : Nat) :
    ∀ l1 l2 : List Nat, countN c (l1 ++ l2) = countN c l1 + countN c l2 := by
  intro l1 l2
  induction l1 with
  | nil => simp [countN]
  | cons x xs ih => simp [countN, ih, Nat.add_assoc]

theorem countN_map_callback (c : Nat) :
    ∀ l : List ListenerEntry,
      countN c (l.map (fun e => e.callback)) = countC c l := by
  intro l
  induction l with
  | nil => rfl
  | cons e es ih => simp [countN, countC, ih]

theorem countC_pos_of_mem (c : Nat) :
    ∀ (l : List ListenerEntry) (x : ListenerEntry),
      x ∈ l → x.callback = c → 0 < countC c l := by
  intro l
  induction l with
  | nil => intro x hx _; cases hx
  | cons y ys ih =>
    intro x hx hxc
    rcases List.mem_cons.mp hx with rfl | h2
    · simp only [countC, if_pos hxc]
      omega
    · have := ih x h2 hxc
      simp only [countC]
      omega

theorem exists_mem_of_countC_pos (c : Nat) :
    ∀ l : List ListenerEntry, 0 < countC c l → ∃ x ∈ l, x.callback = c := by
  intro l
  induction l with
  | nil => intro h; simp [countC] at h
  | cons e es ih =>
    intro h
    by_cases hc : e.callback = c
    · exact ⟨e, List.mem_cons_self e es, hc⟩
    · simp only [countC, if_neg hc, Nat.zero_add] at h
      rcases ih h with ⟨x, hx, hxc⟩
      exact ⟨x, List.mem_cons_of_mem e hx, hxc⟩

theorem countC_removeFirstOnce_ne (c c' : Nat) (h : c' ≠ c) :
    ∀ l : List ListenerEntry,
      countC c (removeFirstOnce c' l) = countC c l := by
  intro l
  induction l with
  | nil => rfl
  | cons e es ih =>
    by_cases hm : e.callback = c' ∧ e.once = true
    · have hnc : e.callback ≠ c := by rw [hm.1]; exact h
      simp only [removeFirstOnce, if_pos hm, countC, if_neg hnc, Nat.zero_add]
    · simp only [removeFirstOnce, if_neg hm, countC, ih]

theorem countC_removeFirstOnce_zero (c c' : Nat) :
    ∀ l : List ListenerEntry,
      countC c l = 0 → countC c (removeFirstOnce c' l) = 0 := by
  intro l
  induction l with
  | nil => intro _; rfl
  | cons e es ih =>
    intro h
    simp only [countC] at h
    by_cases hc : e.callback = c
    · rw [if_pos hc] at h
      omega
    · rw [if_neg hc, Nat.zero_add] at h
      by_cases hm : e.callback = c' ∧ e.once = true
      · simp only [removeFirstOnce, if_pos hm]
        exact h
      · simp only [removeFirstOnce, if_neg hm, countC, if_neg hc, Nat.zero_add]
        exact ih h

theorem countC_removeFirstOnce_once (c : Nat) :
    ∀ l : List ListenerEntry,
      countC c l = 1 → (∃ x ∈ l, x.callback = c ∧ x.once = true) →
      countC c (removeFirstOnce c l) = 0 := by
  intro l
  induction l with
  | nil =>
    intro h _
    simp [countC] at h
  | cons e es ih =>
    intro h hex
    by_cases hm : e.callback = c ∧ e.once = true
    · simp only [removeFirstOnce, if_pos hm]
      simp only [countC, if_pos hm.1] at h
      omega
    · by_cases hc : e.callback = c
      · have honce : e.once ≠ true := fun ho => hm ⟨hc, ho⟩
        simp only [countC, if_pos hc] at h
        have hes : countC c es = 0 := by omega
        obtain ⟨x, hx, hxc, hxo⟩ := hex
        rcases List.mem_cons.mp hx with rfl | hxes
        · exact absurd hxo honce
        · have := countC_pos_of_mem c es x hxes hxc
          omega
      · simp only [countC, if_neg hc] at h
        rw [Nat.zero_add] at h
        simp only [removeFirstOnce, if_neg hm, countC, if_neg hc, Nat.zero_add]
        obtain ⟨x, hx, hxc, hxo⟩ := hex
        rcases List.mem_cons.mp hx with rfl | hxes
        · exact absurd hxc hc
        · exact ih h ⟨x, hxes, hxc, hxo⟩

theorem exists_once_removeFirstOnce (c c' : Nat) (h : c' ≠ c) :
    ∀ l : List ListenerEntry,
      (∃ x ∈ l, x.callback = c ∧ x.once = true) →
      ∃ x ∈ removeFirstOnce c' l, x.callback = c ∧ x.once = true := by
  intro l
  induction l with
  | nil =>
    intro hex
    obtain ⟨x, hx, _⟩ := hex
    cases hx
  | cons e es ih =>
    intro hex
    obtain ⟨x, hx, hxc, hxo⟩ := hex
    by_cases hm : e.callback = c' ∧ e.once = true
    · simp only [removeFirstOnce, if_pos hm]
      rcases List.mem_cons.mp hx with rfl | hxes
      · exact absurd (hm.1.symm.trans hxc) h
      · exact ⟨x, hxes, hxc, hxo⟩
    · simp only [removeFirstOnce, if_neg hm]
      rcases List.mem_cons.mp hx with rfl | hxes
      · exact ⟨x, List.mem_cons_self x _, hxc, hxo⟩
      · obtain ⟨y, hy, hyc, hyo⟩ := ih ⟨x, hxes, hxc, hxo⟩
        exact ⟨y, List.mem_cons_of_mem e hy, hyc, hyo⟩

theorem not_mem_listeners_of_countC_zero (c : Nat) :
    ∀ l : List ListenerEntry,
      countC c l = 0 → c ∉ l.map (fun e => e.callback) := by
  intro l h hm
  rcases List.mem_map.mp hm with ⟨x, hx, hxc⟩
  have := countC_pos_of_mem c l x hx hxc
  omega

theorem passReg_countC_zero (k : String) (c : Nat) :
    ∀ (l : List ListenerEntry) (r : Registry),
      countC c (r k) = 0 → countC c (passReg k l r k) = 0 := by
  intro l
  induction l with
  | nil => intro r h; exact h
  | cons e es ih =>
    intro r h
    simp only [passReg]
    apply ih
    by_cases ho : e.once = true
    · rw [if_pos ho]
      simpa using countC_removeFirstOnce_zero c e.callback (r k) h
    · rw [if_neg ho]
      exact h

theorem passReg_kill (k : String) (c : Nat) :
    ∀ (l : List ListenerEntry) (r : Registry),
      (∀ x ∈ l, x.callback = c → x.once = true) →
      countC c (r k) = 1 →
      (∃ x ∈ r k, x.callback = c ∧ x.once = true) →
      c ∈ l.map (fun e => e.callback) →
      countC c (passReg k l r k) = 0 := by
  intro l
  induction l with
  | nil =>
    intro r _ _ _ hm
    simp at hm
  | cons e es ih =>
    intro r hl h1 hex hm
    simp only [passReg]
    by_cases hc : e.callback = c
    · have ho : e.once = true := hl e (List.mem_cons_self e es) hc
      rw [if_pos ho]
      apply passReg_countC_zero
      have hz : countC c (removeFirstOnce c (r k)) = 0 :=
        countC_removeFirstOnce_once c (r k) h1 hex
      simpa [hc] using hz
    · have hl' : ∀ x ∈ es, x.callback = c → x.once = true :=
        fun x hx => hl x (List.mem_cons_of_mem e hx)
      have hm' : c ∈ es.map (fun x => x.callback) := by
        rcases List.mem_map.mp hm with ⟨x, hx, hxc⟩
        rcases List.mem_cons.mp hx with rfl | hxes
        · exact absurd hxc hc
        · exact List.mem_map.mpr ⟨x, hxes, hxc⟩
      by_cases ho : e.once = true
      · rw [if_pos ho]
        refine ih _ hl' ?_ ?_ hm'
        · have := countC_removeFirstOnce_ne c e.callback hc (r k)
          simpa using this.trans h1
        · have := exists_once_removeFirstOnce c e.callback hc (r k) hex
          simpa using this
      · rw [if_neg ho]
        exact ih r hl' h1 hex hm'

theorem emit_registry_kill (k : String) (c : Nat) (r : Registry)
    (h1 : countC c (r k) = 1)
    (h2 : ∀ x ∈ r k, x.callback = c → x.once = true) :
    countC c ((emit k pureAct noThrows r).registry k) = 0 := by
  have hex : ∃ x ∈ r k, x.callback = c ∧ x.once = true := by
    obtain ⟨x, hx, hxc⟩ := exists_mem_of_countC_pos c (r k) (by omega)
    exact ⟨x, hx, hxc, h2 x hx hxc⟩
  have hmem : c ∈ (r k).map (fun e => e.callback) := by
    obtain ⟨x, hx, hxc⟩ := exists_mem_of_countC_pos c (r k) (by omega)
    exact List.mem_map.mpr ⟨x, hx, hxc⟩
  rw [emit_registry_pure]
  exact passReg_kill k c (r k) r h2 h1 hex hmem

theorem emit_registry_zero (k : String) (c : Nat) (r : Registry)
    (h : countC c (r k) = 0) :
    countC c ((emit k pureAct noThrows r).registry k) = 0 := by
  rw [emit_registry_pure]
  exact passReg_countC_zero k c (r k) r h

theorem emitSeq_trace_zero (k : String) (c : Nat) :
    ∀ (n : Nat) (r : Registry),
      countC c (r k) = 0 →
      countN c (emitSeq k pureAct noThrows n r).2 = 0 := by
  intro n
  induction n with
  | zero => intro r _; rfl
  | succ m ih =>
    intro r h
    simp only [emitSeq]
    rw [countN_append]
    have htr : countN c (emit k pureAct noThrows r).trace = 0 := by
      rw [emit_trace_noThrows, countN_map_callback]
      exact h
    rw [htr, ih _ (emit_registry_zero k c r h)]

theorem onReg_at (r : Registry) (k : String) (c : Nat) :
    onReg r k c k = r k ++ [ListenerEntry.mk c false] := by
  simp [onReg]

theorem onceReg_at (r : Registry) (k : String) (c : Nat) :
    onceReg r k c k = r k ++ [ListenerEntry.mk c true] := by
  simp [onceReg]

theorem prependReg_at (r : Registry) (k : String) (c : Nat) :
    prependReg r k c k = ListenerEntry.mk c false :: r k := by
  simp [prependReg]

theorem prependOnceReg_at (r : Registry) (k : String) (c : Nat) :
    prependOnceReg r k c k = ListenerEntry.mk c true :: r k := by
  simp [prependOnceReg]

theorem offReg_at (r : Registry) (k : String) (c : Nat) :
    offReg r k c k = removeFirst c (r k) := by
  simp [offReg]

theorem emit_returned_eq (k : String) (act : Nat → Registry → Registry)
    (throws : Nat → Bool) (r : Registry) :
    (emit k act throws r).returned = !(r k).isEmpty := rfl

theorem isSome_ite_some (b : Bool) (s : String) :
    (if b then some s else none).isSome = b := by
  cases b <;> rfl

theorem shouldLog_eq (l : Logger) (nodeEnv : Option String) :
    l.shouldLog nodeEnv
      = (l.env.isEmpty || l.env.contains (currentEnvName nodeEnv)) := by
  cases h : l.env.isEmpty with
  | true => simp [Logger.shouldLog, h]
  | false => simp [Logger.shouldLog, h]

/-- C1: `off` (and its alias `removeListener`, identical by definition)
removes exactly the first entry of the event's sequence whose callback
identity equals the listener, scanning in sequence order; when no entry
matches, the call is a no-op on every key; after registering the same
callback twice via `on`, a single `off` removes only the earlier entry,
leaving one registration active. -/
theorem off_removes_first_matching_entry (r : Registry) (k : String) (c : Nat) :
    removeListenerReg = offReg
    ∧ ((∀ e ∈ r k, e.callback ≠ c) → ∀ q, offReg r k c q = r q)
    ∧ (∀ (l1 : List ListenerEntry) (e : ListenerEntry)
        (l2 : List ListenerEntry),
        e.callback = c → (∀ x ∈ l1, x.callback ≠ c) → r k = l1 ++ e :: l2 →
        offReg r k c k = l1 ++ l2)
    ∧ ((∀ e ∈ r k, e.callback ≠ c) →
        offReg (onReg (onReg r k c) k c) k c k
          = r k ++ [ListenerEntry.mk c false]) := by
  refine ⟨rfl, ?_, ?_, ?_⟩
  · intro h q
    by_cases hq : q = k
    · rw [hq, offReg_at]
      exact removeFirst_no_match c (r k) h
    · simp [offReg, hq]
  · intro l1 e l2 he hl1 hsnap
    rw [offReg_at, hsnap]
    exact removeFirst_first_match c l1 e l2 he hl1
  · intro h
    rw [offReg_at, onReg_at, onReg_at]
    have hre : (r k ++ [ListenerEntry.mk c false]) ++ [ListenerEntry.mk c false]
        = r k ++ ListenerEntry.mk c false :: [ListenerEntry.mk c false] := by
      simp
    rw [hre]
    exact removeFirst_first_match c (r k) (ListenerEntry.mk c false)
      [ListenerEntry.mk c false] rfl h

theorem off_removes_first_matching_entry_w :
    offReg (onReg (onReg emptyRegistry "x" 1) "x" 1) "x" 1 "x"
      = emptyRegistry "x" ++ [ListenerEntry.mk 1 false] :=
  (off_removes_first_matching_entry emptyRegistry "x" 1).2.2.2 (by decide)

/-- C2: a listener registered via `once` or `prependOnceListener` (both
add an entry flagged `once`) is invoked at most once across any number of
emissions of its key; its entry is removed from the sequence immediately
before its callback runs, so a listener that re-registers itself during
its own invocation keeps the new registration (the concrete scenario with
`reRegAct`, where the new entry survives the triggering emission and
fires again on the next one); and the listener is absent from
`listeners(eventKey)` after the emission that triggered it. -/
theorem once_listener_lifecycle (k : String) (c : Nat) (r : Registry)
    (n : Nat)
    (h1 : countC c (r k) = 1)
    (h2 : ∀ x ∈ r k, x.callback = c → x.once = true) :
    countN c (emitSeq k pureAct noThrows n r).2 ≤ 1
    ∧ c ∉ listenersOf (emit k pureAct noThrows r).registry k
    ∧ onceReg r k c k = r k ++ [ListenerEntry.mk c true]
    ∧ prependOnceReg r k c k = ListenerEntry.mk c true :: r k
    ∧ (emit "x" reRegAct noThrows (onceReg emptyRegistry "x" 5)).registry "x"
        = [ListenerEntry.mk 5 true]
    ∧ (emit "x" reRegAct noThrows (onceReg emptyRegistry "x" 5)).trace = [5]
    ∧ (emitSeq "x" reRegAct noThrows 2 (onceReg emptyRegistry "x" 5)).2
        = [5, 5] := by
  refine ⟨?_, ?_, onceReg_at r k c, prependOnceReg_at r k c,
    by decide, by decide, by decide⟩
  · cases n with
    | zero => simp [emitSeq, countN]
    | succ m =>
      simp only [emitSeq]
      rw [countN_append]
      have htr : countN c (emit k pureAct noThrows r).trace = 1 := by
        rw [emit_trace_noThrows, countN_map_callback]
        exact h1
      rw [htr, emitSeq_trace_zero k c m _ (emit_registry_kill k c r h1 h2)]
  · exact not_mem_listeners_of_countC_zero c _ (emit_registry_kill k c r h1 h2)

theorem once_listener_lifecycle_w :
    countN 7 (emitSeq "y" pureAct noThrows 3 (onceReg emptyRegistry "y" 7)).2 ≤ 1
    ∧ 7 ∉ listenersOf
        (emit "y" pureAct noThrows (onceReg emptyRegistry "y" 7)).registry "y"
    ∧ onceReg (onceReg emptyRegistry "y" 7) "y" 7 "y"
        = (onceReg emptyRegistry "y" 7) "y" ++ [ListenerEntry.mk 7 true]
    ∧ prependOnceReg (onceReg emptyRegistry "y" 7) "y" 7 "y"
        = ListenerEntry.mk 7 true :: (onceReg emptyRegistry "y" 7) "y"
    ∧ (emit "x" reRegAct noThrows (onceReg emptyRegistry "x" 5)).registry "x"
        = [ListenerEntry.mk 5 true]
    ∧ (emit "x" reRegAct noThrows (onceReg emptyRegistry "x" 5)).trace = [5]
    ∧ (emitSeq "x" reRegAct noThrows 2 (onceReg emptyRegistry "x" 5)).2
        = [5, 5] :=
  once_listener_lifecycle "y" 7 (onceReg emptyRegistry "y" 7) 3
    (by decide) (by decide)

/-- C3: `emit` returns `true` exactly when at least one listener was
registered for the key immediately before the emission began; with zero
listeners it returns `false` without raising, invoking nothing and
leaving the registry unchanged. -/
theorem emit_returns_true_iff_listener_registered (k : String)
    (act : Nat → Registry → Registry) (throws : Nat → Bool) (r : Registry) :
    ((emit k act throws r).returned = true ↔ r k ≠ [])
    ∧ (r k = [] →
        (emit k act throws r).returned = false
        ∧ (emit k act throws r).thrown = none
        ∧ (emit k act throws r).trace = []
        ∧ ∀ q, (emit k act throws r).registry q = r q) := by
  constructor
  · rw [emit_returned_eq]
    cases hrk : r k with
    | nil => simp [hrk]
    | cons a as => simp [hrk]
  · intro h
    refine ⟨?_, ?_, ?_, ?_⟩
    · rw [emit_returned_eq, h]
      rfl
    · rw [emit_thrown_eq, h]
      rfl
    · rw [emit_trace_eq, h]
      rfl
    · intro q
      show (runEntries k act throws (r k) r).1 q = r q
      rw [h]
      rfl

theorem emit_returns_true_iff_listener_registered_w :
    (emit "x" pureAct noThrows emptyRegistry).returned = false
    ∧ (emit "x" pureAct noThrows emptyRegistry).thrown = none
    ∧ (emit "x" pureAct noThrows emptyRegistry).trace = [] :=
  ⟨((emit_returns_true_iff_listener_registered "x" pureAct noThrows
      emptyRegistry).2 rfl).1,
   ((emit_returns_true_iff_listener_registered "x" pureAct noThrows
      emptyRegistry).2 rfl).2.1,
   ((emit_returns_true_iff_listener_registered "x" pureAct noThrows
      emptyRegistry).2 rfl).2.2.1⟩

/-- C4: if the event's snapshot is `l1 ++ e :: l2` where no listener of
`l1` throws and `e` throws, the emission invokes exactly the listeners
of `l1` followed by `e` — no listener after `e` runs — and the error of
`e` propagates unchanged (neither caught nor wrapped) to the caller of
`emit`. -/
theorem listener_throw_aborts_emission (k : String)
    (act : Nat → Registry → Registry) (throws : Nat → Bool) (r : Registry)
    (l1 : List ListenerEntry) (e : ListenerEntry) (l2 : List ListenerEntry)
    (hsnap : r k = l1 ++ e :: l2)
    (hbefore : ∀ x ∈ l1, throws x.callback = false)
    (hthrow : throws e.callback = true) :
    (emit k act throws r).trace = l1.map (fun x => x.callback) ++ [e.callback]
    ∧ (emit k act throws r).thrown = some e.callback := by
  constructor
  · rw [emit_trace_eq, hsnap]
    exact traceOf_first_throw throws l1 e l2 hbefore hthrow
  · rw [emit_thrown_eq, hsnap]
    exact thrownOf_first_throw throws l1 e l2 hbefore hthrow

theorem listener_throw_aborts_emission_w :
    (emit "x" pureAct throwsTwo
        (onReg (onReg (onReg emptyRegistry "x" 1) "x" 2) "x" 3)).trace = [1, 2]
    ∧ (emit "x" pureAct throwsTwo
        (onReg (onReg (onReg emptyRegistry "x" 1) "x" 2) "x" 3)).thrown
      = some 2 :=
  listener_throw_aborts_emission "x" pureAct throwsTwo
    (onReg (onReg (onReg emptyRegistry "x" 1) "x" 2) "x" 3)
    [ListenerEntry.mk 1 false] (ListenerEntry.mk 2 false)
    [ListenerEntry.mk 3 false] (by decide) (by decide) (by decide)

/-- C5: `on` appends its entry at the end of the event's sequence and
`prependListener` inserts its entry at the front; consequently after
`on(A); on(B); prependListener(C)` both `listeners(eventKey)` and the
invocation order of `emit` are `C, A, B`. -/
theorem registration_order_with_prepend (r : Registry) (k : String)
    (a b c : Nat) :
    onReg r k c k = r k ++ [ListenerEntry.mk c false]
    ∧ prependReg r k c k = ListenerEntry.mk c false :: r k
    ∧ listenersOf (prependReg (onReg (onReg emptyRegistry k a) k b) k c) k
        = [c, a, b]
    ∧ (emit k pureAct noThrows
        (prependReg (onReg (onReg emptyRegistry k a) k b) k c)).trace
        = [c, a, b] := by
  refine ⟨onReg_at r k c, prependReg_at r k c, ?_, ?_⟩
  · simp [listenersOf, prependReg, onReg, emptyRegistry]
  · rw [emit_trace_noThrows]
    simp [prependReg, onReg, emptyRegistry]

/-- C6: the listeners invoked by an emission are exactly those in the
event's sequence when the emission began, in that order, whatever
mutations the listeners apply to the registry during the emission
(arbitrary behaviour `act`); concretely, callback `1` removing callback
`2` mid-emission does not prevent `2` from being invoked in that same
pass, while the removal does take effect in the resulting registry. -/
theorem emission_snapshot_immune_to_mutation (k : String)
    (act : Nat → Registry → Registry) (r : Registry) :
    (emit k act noThrows r).trace = (r k).map (fun e => e.callback)
    ∧ (emit "x" removerAct noThrows
        (onReg (onReg emptyRegistry "x" 1) "x" 2)).trace = [1, 2]
    ∧ (emit "x" removerAct noThrows
        (onReg (onReg emptyRegistry "x" 1) "x" 2)).registry "x"
        = [ListenerEntry.mk 1 false] :=
  ⟨emit_trace_noThrows k act r, by decide, by decide⟩

/-- C7: registering the same callback twice via `on` yields two
independent entries in the event's sequence, and a subsequent `emit`
invokes that callback exactly twice. -/
theorem duplicate_registration_two_entries (r : Registry) (k : String)
    (c : Nat) :
    onReg (onReg r k c) k c k
      = r k ++ [ListenerEntry.mk c false, ListenerEntry.mk c false]
    ∧ (emit k pureAct noThrows (onReg (onReg r k c) k c)).trace
      = (r k).map (fun e => e.callback) ++ [c, c] := by
  constructor
  · simp [onReg]
  · rw [emit_trace_noThrows]
    simp [onReg]

/-- C8 counterexample: `removeAllListeners("")` does not clear only the
named event — the wrapper's truthiness test sends the empty-string key
to the bare, clear-everything branch, so the sequence of the distinct
event `"a"`, which held a listener, is cleared as well. -/
theorem removeAllListeners_scoped_clear_cex :
    removeAllListenersOp (onReg emptyRegistry "a" 1) (some "") "a" = []
    ∧ (onReg emptyRegistry "a" 1) "a" = [ListenerEntry.mk 1 false] := by
  refine ⟨rfl, by decide⟩

/-- C8 (amended): `removeAllListeners()` with no argument clears every
event's sequence; `removeAllListeners(eventKey)` with a truthy
(non-empty) key clears exactly the named event's sequence and leaves
every other event's sequence unchanged; with the falsy key `""` the
wrapper's truthiness test routes to the no-argument branch and every
event's sequence is cleared; all cases are total functions, hence
silently succeed on events that have no listeners. -/
theorem removeAllListeners_truthy_scoped_clear (r : Registry) (k q : String) :
    removeAllListenersOp r none q = []
    ∧ (k ≠ "" → removeAllListenersOp r (some k) k = [])
    ∧ (k ≠ "" → q ≠ k → removeAllListenersOp r (some k) q = r q)
    ∧ removeAllListenersOp r (some "") q = [] := by
  refine ⟨rfl, ?_, ?_, rfl⟩
  · intro hk
    simp [removeAllListenersOp, hk, removeAllKeyReg]
  · intro hk hq
    simp [removeAllListenersOp, hk, removeAllKeyReg, hq]

theorem removeAllListeners_truthy_scoped_clear_w :
    removeAllListenersOp (onReg (onReg emptyRegistry "a" 1) "b" 2)
      (some "a") "a" = []
    ∧ removeAllListenersOp (onReg (onReg emptyRegistry "a" 1) "b" 2)
        (some "a") "b" = (onReg (onReg emptyRegistry "a" 1) "b" 2) "b" :=
  ⟨(removeAllListeners_truthy_scoped_clear
      (onReg (onReg emptyRegistry "a" 1) "b" 2) "a" "b").2.1 (by decide),
   (removeAllListeners_truthy_scoped_clear
      (onReg (onReg emptyRegistry "a" 1) "b" 2) "a" "b").2.2.1
      (by decide) (by decide)⟩

/-- C9: each of the four logger levels (`log`, `error`, `warn`, `debug`)
outputs a message exactly when the logger's environment allow-list is
empty or contains the current environment name; an absent allow-list is
stored as the empty list by the constructor, and a logger with an empty
allow-list always outputs. -/
theorem logger_env_gating (l : Logger) (nodeEnv : Option String)
    (msg code : String) :
    ((l.log nodeEnv msg).isSome
        = (l.env.isEmpty || l.env.contains (currentEnvName nodeEnv)))
    ∧ ((l.error nodeEnv msg).isSome
        = (l.env.isEmpty || l.env.contains (currentEnvName nodeEnv)))
    ∧ ((l.warn nodeEnv msg).isSome
        = (l.env.isEmpty || l.env.contains (currentEnvName nodeEnv)))
    ∧ ((l.debug nodeEnv msg).isSome
        = (l.env.isEmpty || l.env.contains (currentEnvName nodeEnv)))
    ∧ (Logger.make none).env = []
    ∧ (Logger.make (some (LoggerOptions.mk (some code) none))).env = []
    ∧ ((Logger.mk code []).log nodeEnv msg).isSome = true := by
  refine ⟨?_, ?_, ?_, ?_, rfl, rfl, rfl⟩
  · rw [Logger.log, isSome_ite_some, shouldLog_eq]
  · rw [Logger.error, isSome_ite_some, shouldLog_eq]
  · rw [Logger.warn, isSome_ite_some, shouldLog_eq]
  · rw [Logger.debug, isSome_ite_some, shouldLog_eq]

end Utilities
